import Mathlib

/-!
# galen: server lifecycle, classic log formatter, header copy

A shallow embedding of three pieces of `ltinyho/galen`:

* `pkg/qhttp/server.go`  : `RunServer`, as an interleaving transition system of the
  coordinating path and the goroutine it starts;
* `glog/formatter_classic.go` : `ShortLevel.String` and `ClassicFormatter.Format`;
* `pkg/qhttp/client.go` : the header-copy loop of `PostWithHeader`.
-/

namespace qhttp

/-! ## `RunServer` (pkg/qhttp/server.go) -/

/-- Non-nil Go error values. `ErrServerClosed` is `http.ErrServerClosed`, the one value
the goroutine compares against; every other error is told apart by its text. -/
inductive GoError where
  | ErrServerClosed
  | DeadlineExceeded
  | other (msg : String)
  deriving DecidableEq, Repr

/-- A Go `error` interface value: `none` is `nil`. -/
abbrev Err := Option GoError

/-- Contexts that occur in `RunServer`: the caller's `ctx`, `context.Background()`, and
`context.WithTimeout(parent, d)` with `d` in nanoseconds. -/
inductive Context where
  | caller
  | Background
  | WithTimeout (parent : Context) (ns : Nat)
  deriving DecidableEq, Repr

/-- The constant `time.Second`, in nanoseconds. -/
def Second : Nat := 1000000000

/-- The four logging statements of `RunServer`, by source line:
17 `log.Debugf("Listening and serving HTTP on %s\n", addr)`,
29 `log.WithError(err).Error("HTTP server error")`,
42 `log.WithError(err).Error("Server Shutdown:", err)`,
47 `log.Debug("Server gracefully exit")`. -/
inductive LogLine where
  | listening (addr : String)
  | serverError (err : GoError)
  | shutdownError (err : GoError)
  | gracefulExit
  deriving DecidableEq, Repr

/-- What a run does to its collaborators, in the order it happens: a line handed to the
logging sink, or an invocation of `srv.Shutdown` with the given context. -/
inductive Effect where
  | log (l : LogLine)
  | Shutdown (ctx : Context)
  deriving DecidableEq, Repr

/-- Program counter of the coordinating path (the body of `RunServer`), by source line.
Lines 19-24 build the server value and the channel and touch nothing else, so `L17` is
followed by the `go` statement `L26`. `L34` waits in the `select`, a receive there
returns at once (lines 35-36). `L41wait` is inside the call `srv.Shutdown(shutDownCtx)`. `L42 e` logs and returns `e`
(lines 42-43), `L47` logs and returns nil (lines 47-48). The three `ret` states are the
three `return` statements, after they ran. -/
inductive CoordPC where
  | L17
  | L26
  | L34
  | L38
  | L41
  | L41wait
  | L42 (err : GoError)
  | L47
  | ret36 (err : GoError)
  | ret43 (err : GoError)
  | ret48
  deriving DecidableEq, Repr

/-- Program counter of the goroutine of lines 26-32. `L28` is inside
`srv.ListenAndServe()`, `L29 e` is about to log `e`, `L30 e` is at the send
`srvErrChan <- e`, `L31 e` is past that send (the goroutine ends there), `exited` is the
end of the function literal reached when the test of line 28 fails. -/
inductive BgPC where
  | notStarted
  | L28
  | L29 (err : GoError)
  | L30 (err : GoError)
  | L31 (err : GoError)
  | exited
  deriving DecidableEq, Repr

/-- State of one invocation of `RunServer`. `ctxDone` says whether the caller's scope
has fired, `shutDownCtx` is the local of line 38, `released` whether the deferred
`cancel()` of line 39 has run, `trace` the effects so far, oldest first. -/
structure State where
  addr : String
  ctxDone : Bool
  coord : CoordPC
  bg : BgPC
  shutDownCtx : Option Context
  released : Bool
  trace : List Effect
  deriving DecidableEq, Repr

/-- One scheduling choice. `coord` and `bg` run the next statement of either path;
`cancel` is the caller cancelling `ctx`; `serveReturns r` and `shutdownReturns r` are
the library calls `srv.ListenAndServe()` and `srv.Shutdown(..)` returning `r`;
`selectRecv` and `selectDone` are the two cases of the `select` of line 34. -/
inductive Action where
  | coord
  | bg
  | cancel
  | serveReturns (r : Err)
  | shutdownReturns (r : Err)
  | selectRecv
  | selectDone
  deriving DecidableEq, Repr

/-- State on entry to `RunServer(ctx, addr, handler)`; `ctxDone` tells whether `ctx` is
already cancelled at the call. -/
def init (addr : String) (ctxDone : Bool) : State :=
  { addr := addr, ctxDone := ctxDone, coord := .L17, bg := .notStarted,
    shutDownCtx := none, released := false, trace := [] }

/-- The test of line 28 on the value `srv.ListenAndServe()` returned:
`err != nil && err != http.ErrServerClosed`. -/
def afterServe (r : Err) : BgPC :=
  match r with
  | none => .exited
  | some e => if e ≠ .ErrServerClosed then .L29 e else .exited

/-- One step of `RunServer`; `none` when the action is not enabled in the state.
`srvErrChan` is made by `make(chan error)`, without a buffer: the send of line 30
completes only together with the receive of line 35 (`selectRecv`). -/
def step (a : Action) (s : State) : Option State :=
  match a with
  | .cancel => some { s with ctxDone := true }
  | .coord =>
    match s.coord with
    | .L17 => some { s with coord := .L26, trace := s.trace ++ [.log (.listening s.addr)] }
    | .L26 => some { s with coord := .L34, bg := .L28 }
    | .L38 =>
      some { s with coord := .L41, shutDownCtx := some (.WithTimeout .Background (5 * Second)) }
    | .L41 =>
      match s.shutDownCtx with
      | some c => some { s with coord := .L41wait, trace := s.trace ++ [.Shutdown c] }
      | none => none
    | .L42 e =>
      some { s with coord := .ret43 e, released := true,
                    trace := s.trace ++ [.log (.shutdownError e)] }
    | .L47 =>
      some { s with coord := .ret48, released := true, trace := s.trace ++ [.log .gracefulExit] }
    | _ => none
  | .bg =>
    match s.bg with
    | .L29 e => some { s with bg := .L30 e, trace := s.trace ++ [.log (.serverError e)] }
    | _ => none
  | .serveReturns r =>
    match s.bg with
    | .L28 => some { s with bg := afterServe r }
    | _ => none
  | .shutdownReturns r =>
    match s.coord with
    | .L41wait =>
      match r with
      | some e => some { s with coord := .L42 e }
      | none => some { s with coord := .L47 }
    | _ => none
  | .selectRecv =>
    match s.coord, s.bg with
    | .L34, .L30 e => some { s with coord := .ret36 e, bg := .L31 e }
    | _, _ => none
  | .selectDone =>
    match s.coord with
    | .L34 => if s.ctxDone then some { s with coord := .L38 } else none
    | _ => none

/-- Run a schedule from a state; `none` as soon as one action is not enabled. -/
def exec (sched : List Action) (s : State) : Option State :=
  sched.foldlM (fun st a => step a st) s

/-- The value `RunServer` returned, if it has returned. -/
def result (s : State) : Option Err :=
  match s.coord with
  | .ret36 e => some (some e)
  | .ret43 e => some (some e)
  | .ret48 => some none
  | _ => none

/-- The effect is an invocation of `srv.Shutdown`. -/
def Effect.isShutdown : Effect → Bool
  | .Shutdown _ => true
  | .log _ => false

/-- The effect comes from the goroutine (its only effect is the log of line 29). -/
def Effect.isBg : Effect → Bool
  | .log (.serverError _) => true
  | .log (.listening _) => false
  | .log (.shutdownError _) => false
  | .log .gracefulExit => false
  | .Shutdown _ => false

/-- The effects of the coordinating path within a trace, in order. -/
def coordTrace (t : List Effect) : List Effect := t.filter (fun e => !e.isBg)

/-- The effects of the goroutine within a trace, in order. -/
def bgTrace (t : List Effect) : List Effect := t.filter (fun e => e.isBg)

/-- The context line 38 builds: `context.WithTimeout(context.Background(), 5*time.Second)`. -/
def shutdownScope : Context := .WithTimeout .Background (5 * Second)

/-! ### Invariant of the reachable states -/

/-- The effects the coordinating path has produced when it stands at a program counter. -/
def coordEffects (addr : String) : CoordPC → List Effect
  | .L17 => []
  | .L26 => [.log (.listening addr)]
  | .L34 => [.log (.listening addr)]
  | .L38 => [.log (.listening addr)]
  | .L41 => [.log (.listening addr)]
  | .ret36 _ => [.log (.listening addr)]
  | .L41wait => [.log (.listening addr), .Shutdown shutdownScope]
  | .L42 _ => [.log (.listening addr), .Shutdown shutdownScope]
  | .L47 => [.log (.listening addr), .Shutdown shutdownScope]
  | .ret43 e => [.log (.listening addr), .Shutdown shutdownScope, .log (.shutdownError e)]
  | .ret48 => [.log (.listening addr), .Shutdown shutdownScope, .log .gracefulExit]

/-- The effects the goroutine has produced when it stands at a program counter. -/
def bgEffects : BgPC → List Effect
  | .L30 e => [.log (.serverError e)]
  | .L31 e => [.log (.serverError e)]
  | .notStarted => []
  | .L28 => []
  | .L29 _ => []
  | .exited => []

/-- The coordinating path has taken the `<-ctx.Done()` case. -/
def tookDone : CoordPC → Bool
  | .L38 => true
  | .L41 => true
  | .L41wait => true
  | .L42 _ => true
  | .L47 => true
  | .ret43 _ => true
  | .ret48 => true
  | .L17 => false
  | .L26 => false
  | .L34 => false
  | .ret36 _ => false

/-- The value `srv.Shutdown` returned, once it has. -/
def shutdownValue : CoordPC → Option Err
  | .L42 e => some (some e)
  | .ret43 e => some (some e)
  | .L47 => some none
  | .ret48 => some none
  | .L17 => none
  | .L26 => none
  | .L34 => none
  | .L38 => none
  | .L41 => none
  | .L41wait => none
  | .ret36 _ => none

/-- Facts that hold of every state `s` reached from `init addr c0` by `sched`. -/
structure Inv (addr : String) (c0 : Bool) (sched : List Action) (s : State) : Prop where
  addr_eq : s.addr = addr
  done_iff : s.ctxDone = true ↔ (c0 = true ∨ Action.cancel ∈ sched)
  coord_trace : coordTrace s.trace = coordEffects addr s.coord
  bg_trace : bgTrace s.trace = bgEffects s.bg
  start : s.coord = .L17 → s.trace = []
  head : s.coord ≠ .L17 → s.trace.head? = some (.log (.listening addr))
  early : s.bg = .notStarted ↔ (s.coord = .L17 ∨ s.coord = .L26)
  scope : s.coord = .L41 → s.shutDownCtx = some shutdownScope
  fired : tookDone s.coord = true → s.ctxDone = true
  serve_none : (s.bg = .notStarted ∨ s.bg = .L28) → ∀ r, Action.serveReturns r ∉ sched
  serve_link : ∀ r, Action.serveReturns r ∈ sched →
    (s.bg = .exited ∧ (r = none ∨ r = some .ErrServerClosed)) ∨
      ∃ e, r = some e ∧ e ≠ .ErrServerClosed ∧ (s.bg = .L29 e ∨ s.bg = .L30 e ∨ s.bg = .L31 e)
  bg_link : ∀ e, (s.bg = .L29 e ∨ s.bg = .L30 e ∨ s.bg = .L31 e) →
    Action.serveReturns (some e) ∈ sched ∧ e ≠ .ErrServerClosed
  sent_iff : ∀ e, s.bg = .L31 e ↔ s.coord = .ret36 e
  recv_iff : Action.selectRecv ∈ sched ↔ ∃ e, s.coord = .ret36 e
  done_sel_iff : Action.selectDone ∈ sched ↔ tookDone s.coord = true
  shut_iff : ∀ r, Action.shutdownReturns r ∈ sched ↔ some r = shutdownValue s.coord

/-! ### Concrete runs -/

/-- An error of the accept loop. -/
def acceptErr : GoError := .other "accept tcp [::]:8080: accept4: too many open files"

/-- The error `net.Listen` gives for an address that is taken. -/
def bindErr : GoError := .other "listen tcp :8080: bind: address already in use"

/-- The serve loop fails while the scope is live; the coordinating path receives the error. -/
def fatalRun : List Action :=
  [.coord, .coord, .serveReturns (some acceptErr), .bg, .selectRecv]

/-- The scope is cancelled, `Shutdown` is called, `ListenAndServe` returns
`http.ErrServerClosed`, `Shutdown` returns nil. -/
def gracefulRun : List Action :=
  [.coord, .coord, .cancel, .selectDone, .coord, .coord,
   .serveReturns (some .ErrServerClosed), .shutdownReturns none, .coord]

/-- The scope is cancelled and `Shutdown` runs into its deadline. -/
def timeoutRun : List Action :=
  [.coord, .coord, .cancel, .selectDone, .coord, .coord,
   .shutdownReturns (some .DeadlineExceeded), .coord]

/-- The scope is cancelled and `RunServer` returns nil; only then does `ListenAndServe`
fail with the bind error. -/
def lateErrorRun : List Action :=
  [.coord, .coord, .cancel, .selectDone, .coord, .coord, .shutdownReturns none, .coord,
   .serveReturns (some bindErr), .bg]

/-- Binding fails, the goroutine logs the error and stands at the send; the scope is
cancelled when `RunServer` is called and the `select` takes the cancellation case. -/
def bindCancelledRun : List Action :=
  [.coord, .coord, .serveReturns (some bindErr), .bg, .selectDone, .coord, .coord,
   .shutdownReturns none, .coord]

/-- Binding fails while the scope is live. -/
def bindRun : List Action :=
  [.coord, .coord, .serveReturns (some bindErr), .bg, .selectRecv]

/-- The scope is cancelled while the server runs and `Shutdown` returns nil. -/
def cancelRun : List Action :=
  [.coord, .coord, .cancel, .selectDone, .coord, .coord, .shutdownReturns none, .coord]

/-- The lifecycle events the specification lists for the logging sink. -/
inductive LifecycleEvent where
  | start (addr : String)
  | backgroundFatal
  | shutdownInitiation
  | shutdownSuccess
  | shutdownTimeout
  deriving DecidableEq, Repr

/-- The lifecycle event each logging statement of `RunServer` reports. -/
def LogLine.event : LogLine → LifecycleEvent
  | .listening addr => .start addr
  | .serverError _ => .backgroundFatal
  | .shutdownError _ => .shutdownTimeout
  | .gracefulExit => .shutdownSuccess

/-- The lifecycle events logged before the first invocation of `srv.Shutdown`. -/
def loggedBeforeShutdown (t : List Effect) : List LifecycleEvent :=
  (t.takeWhile (fun x => !x.isShutdown)).filterMap fun x =>
    match x with
    | .log l => some l.event
    | .Shutdown _ => none

end qhttp

namespace GoMap

/-! ## Go maps with string keys

A map is the list of its entries in the order one `range` over it yields them; the keys
of a map are pairwise distinct. -/

/-- The keys, in iteration order. -/
def keys {α : Type} (m : List (String × α)) : List String := m.map Prod.fst

/-- The lookup `v, ok := m[k]`. -/
def get? {α : Type} (m : List (String × α)) (k : String) : Option α := m.lookup k

/-- The assignment `m[k] = v`: the entry of `k` is replaced, or a new entry is added. -/
def set {α : Type} (m : List (String × α)) (k : String) (v : α) : List (String × α) :=
  if k ∈ keys m then m.map (fun p => if p.1 = k then (k, v) else p) else m ++ [(k, v)]

end GoMap

namespace glog

/-! ## `ShortLevel` and `ClassicFormatter` (glog/formatter_classic.go) -/

/-- The constant `logrus.PanicLevel` (logrus numbers its levels with `iota` from 0). -/
def PanicLevel : Nat := 0
/-- The constant `logrus.FatalLevel`. -/
def FatalLevel : Nat := 1
/-- The constant `logrus.ErrorLevel`. -/
def ErrorLevel : Nat := 2
/-- The constant `logrus.WarnLevel`. -/
def WarnLevel : Nat := 3
/-- The constant `logrus.InfoLevel`. -/
def InfoLevel : Nat := 4
/-- The constant `logrus.DebugLevel`. -/
def DebugLevel : Nat := 5
/-- The constant `logrus.TraceLevel`. -/
def TraceLevel : Nat := 6

/-- The method `ShortLevel.String`; a `ShortLevel` is a `uint32`, here a natural number
below `2 ^ 32`. The `switch` compares with the seven levels in source order. -/
def ShortLevel.String (level : Nat) : String :=
  if level = TraceLevel then "T"
  else if level = DebugLevel then "D"
  else if level = InfoLevel then "I"
  else if level = WarnLevel then "W"
  else if level = ErrorLevel then "E"
  else if level = FatalLevel then "F"
  else if level = PanicLevel then "P"
  else "X"

/-- A field value (`interface{}`): a Go string, or any other value together with the
text `fmt.Sprint` gives for it. -/
inductive Value where
  | str (s : String)
  | other (sprint : String)
  deriving DecidableEq, Repr

/-- The type `logrus.Fields`, a `map[string]interface{}`. -/
abbrev Fields := List (String × Value)

/-- The frame `entry.Caller`, with the two fields `Format` reads. -/
structure Frame where
  File : String
  Line : Int
  deriving DecidableEq, Repr

/-- The fields of `logrus.Entry` that `Format` reads. `Time layout` is
`entry.Time.Format(layout)`, `Buffer` the contents of `entry.Buffer` when it is not nil,
`ReportCaller` is `entry.Logger != nil && entry.Logger.ReportCaller`. -/
structure Entry where
  Data : Fields
  Time : String → String
  Level : Nat
  ReportCaller : Bool
  Caller : Option Frame
  Message : String
  Buffer : Option String

/-- The method `entry.HasCaller()` of logrus. -/
def Entry.HasCaller (entry : Entry) : Bool := entry.ReportCaller && entry.Caller.isSome

/-- The struct `ClassicFormatter`. `SortingFunc` sorts a slice in place; it is given by
the contents it leaves in the slice. -/
structure ClassicFormatter where
  TimestampFormat : String
  DisableTimestamp : Bool
  TruncateCallerPath : Bool
  CallerPathStrip : Bool
  SortField : Bool
  DisableSorting : Bool
  SortingFunc : Option (List String → List String)

/-- What `Format` takes from outside this file: the constant `longTimeStamp` of package
glog and the library function `filepath.Base`. -/
structure Env where
  longTimeStamp : String
  Base : String → String

/-- The function `prefixFieldClashes`; it assigns into `data` in place, the result is the
map afterwards. -/
def prefixFieldClashes (data : Fields) (hasCaller : Bool) : Fields :=
  let data := match GoMap.get? data "time" with
    | some t => GoMap.set data "fields.time" t
    | none => data
  let data := match GoMap.get? data "msg" with
    | some m => GoMap.set data "fields.msg" m
    | none => data
  let data := match GoMap.get? data "level" with
    | some l => GoMap.set data "fields.level" l
    | none => data
  if hasCaller then
    let data := match GoMap.get? data "func" with
      | some fc => GoMap.set data "fields.func" fc
      | none => data
    match GoMap.get? data "file" with
    | some f => GoMap.set data "fields.file" f
    | none => data
  else data

/-- The function `stripPathAuto`: the last two segments of a path with more than two. -/
def stripPathAuto (path : String) : String :=
  let parts := path.splitOn "/"
  let plen := parts.length
  if plen > 2 then String.intercalate "/" (parts.drop (plen - 2)) else path

/-- The text a value is written as: a string as it is, any other value through
`fmt.Sprint`. -/
def Value.text : Value → String
  | .str s => s
  | .other sprint => sprint

/-- The value `data[k]`; an absent key gives `nil`, which prints as `<nil>`. -/
def valueOf (data : Fields) (k : String) : Value := (GoMap.get? data k).getD (.other "<nil>")

/-- The text ` key=value` for each key of `ks` in turn, values taken from `data`. -/
def fieldsText (data : Fields) (ks : List String) : String :=
  ks.foldr (fun k rest => " " ++ k ++ "=" ++ (valueOf data k).text ++ rest) ""

/-- The method `appendValue`: a string is written as it is, any other value through
`fmt.Sprint`. -/
def appendValue (b : String) (value : Value) : String :=
  match value with
  | .str s => b ++ s
  | .other sprint => b ++ sprint

/-- The method `appendValueOnly`; `b.Len() > 0` holds when the buffer is not empty. -/
def appendValueOnly (b : String) (value : Value) : String :=
  let b := if b.length > 0 then b ++ " " else b
  appendValue b value

/-- The method `appendKeyValue`. -/
def appendKeyValue (b : String) (key : String) (value : Value) : String :=
  let b := if b.length > 0 then b ++ " " else b
  let b := b ++ key
  let b := b ++ "="
  appendValue b value

/-- The function `sort.Strings`: the keys in ascending order of Go's string comparison
(bytewise, which on UTF-8 text is the order of `String`). -/
def sortStrings (keys : List String) : List String := keys.insertionSort (· ≤ ·)

/-- The method `ClassicFormatter.Format`: the bytes it returns and the error, which is
always nil. The assignments of `prefixFieldClashes` stay in `entry.Data`. -/
def ClassicFormatter.Format (env : Env) (f : ClassicFormatter) (entry : Entry) :
    String × Option String :=
  let data := prefixFieldClashes entry.Data entry.HasCaller
  let b := match entry.Buffer with
    | some buf => buf
    | none => ""
  let timestampFormat := if f.TimestampFormat = "" then env.longTimeStamp else f.TimestampFormat
  let b := if !f.DisableTimestamp then b ++ entry.Time timestampFormat else b
  let b :=
    if entry.HasCaller then
      match entry.Caller with
      | some c =>
        if f.TruncateCallerPath then
          if !f.CallerPathStrip then
            appendValueOnly b (.str (env.Base c.File ++ ":" ++ toString c.Line))
          else
            appendValueOnly b (.str (stripPathAuto c.File ++ ":" ++ toString c.Line))
        else
          appendValueOnly b (.str (c.File ++ ":" ++ toString c.Line))
      | none => b
    else b
  let b := appendValueOnly b (.str ("[" ++ ShortLevel.String entry.Level ++ "]"))
  let b := if entry.Message.length > 0 then appendValueOnly b (.str entry.Message) else b
  let keys := GoMap.keys data
  let fixedKeys :=
    if !f.DisableSorting then
      match f.SortingFunc with
      | none => sortStrings keys
      | some sortingFunc => sortingFunc keys
    else keys
  let b := fixedKeys.foldl (fun b k => appendKeyValue b k (valueOf data k)) b
  (b ++ "\n", none)

/-- The number of `'\n'` characters at the end of a text. -/
def trailingNewlines (s : String) : Nat := (s.data.reverse.takeWhile (· == '\n')).length

/-- A formatter with the timestamp off, sorting on and no `SortingFunc`. -/
def sampleFormatter : ClassicFormatter :=
  { TimestampFormat := "", DisableTimestamp := true, TruncateCallerPath := false,
    CallerPathStrip := false, SortField := false, DisableSorting := false,
    SortingFunc := none }

/-- An entry at level info with three fields, one of them named `time`. -/
def sampleEntry : Entry :=
  { Data := [("pkg", .str "http"), ("time", .other "7"), ("addr", .str ":8080")],
    Time := fun layout => layout, Level := InfoLevel, ReportCaller := false, Caller := none,
    Message := "started", Buffer := none }

/-- An entry at level info without fields whose message ends in a newline, as the one
`log.Debugf("Listening and serving HTTP on %s\n", addr)` makes. -/
def newlineEntry : Entry :=
  { Data := [], Time := fun layout => layout, Level := InfoLevel, ReportCaller := false,
    Caller := none, Message := "m\n", Buffer := none }

end glog

namespace qhttp

/-! ## The header copy of `PostWithHeader` (pkg/qhttp/client.go) -/

/-- The type `http.Header`, a `map[string][]string`. -/
abbrev Header := List (String × List String)

/-- The values `h[key]`; the nil slice of an absent key is the empty list. -/
def Header.values (h : Header) (key : String) : List String := (GoMap.get? h key).getD []

/-- The method `Header.Add` of net/http: the value is appended to the values of the
canonical form of the key; `canon` is `textproto.CanonicalMIMEHeaderKey`. -/
def Header.Add (canon : String → String) (h : Header) (key value : String) : Header :=
  GoMap.set h (canon key) (Header.values h (canon key) ++ [value])

/-- The loop of lines 49-51, `for k, v := range headers { req.Header.Add(k, v[0]) }`,
from the header of the request so far. Indexing an empty `v` panics (`error`). -/
def copyHeaders (canon : String → String) (headers : Header) (reqHeader : Header) :
    Except String Header :=
  headers.foldlM (fun h kv =>
    match kv.2 with
    | v0 :: _ => Except.ok (Header.Add canon h kv.1 v0)
    | [] => Except.error "runtime error: index out of range [0] with length 0") reqHeader

/-- The request `http.NewRequest` builds, with the fields `PostWithHeader` touches. -/
structure Request where
  Method : String
  URL : String
  Header : Header
  deriving DecidableEq, Repr

/-- The function `PostWithHeader`. `NewRequest` and `Do` stand for `http.NewRequest` and
`Client.Do`; `headers` is `none` for a nil map. The result is the pair the function
returns, or `error` when it panics. -/
def PostWithHeader {ρ β : Type} (canon : String → String)
    (NewRequest : String → String → β → Except GoError Request)
    (Do : Request → Except GoError ρ) (url : String) (headers : Option Header) (body : β) :
    Except String (Option ρ × Err) :=
  match NewRequest "POST" url body with
  | .error err => .ok (none, some err)
  | .ok req =>
    let copied := match headers with
      | some hs => copyHeaders canon hs req.Header
      | none => .ok req.Header
    match copied with
    | .error p => .error p
    | .ok h =>
      match Do { req with Header := h } with
      | .error err => .ok (none, some err)
      | .ok rsp => .ok (some rsp, none)

/-- What `PostWithHeader` returns once `Client.Do` has answered (lines 53-58). -/
def afterDo {ρ : Type} (answer : Except GoError ρ) : Except String (Option ρ × Err) :=
  match answer with
  | .error err => .ok (none, some err)
  | .ok rsp => .ok (some rsp, none)

/-- A canonical form that capitalises the one key `x-token`. -/
def sampleCanon (k : String) : String := if k = "x-token" then "X-Token" else k

/-- A header map with two values under `Accept` and one under `x-token`. -/
def sampleHeaders : Header := [("Accept", ["text/html", "text/plain"]), ("x-token", ["t1"])]

/-- A header map in which `X-Empty` has no value. -/
def emptyValueHeaders : Header := [("Accept", ["text/html"]), ("X-Empty", [])]

/-- A stand-in for `http.NewRequest` that always succeeds, with an empty header. -/
def sampleNewRequest (method url : String) (_body : Unit) : Except GoError Request :=
  .ok { Method := method, URL := url, Header := [] }

/-- A stand-in for `Client.Do` that answers with the request it was given. -/
def echoDo (req : Request) : Except GoError Request := .ok req

end qhttp

/-! # Theorems -/

namespace qhttp

/-! ### The invariant holds initially and is kept by every step -/

attribute [simp] coordEffects.eq_1 coordEffects.eq_2 coordEffects.eq_3 coordEffects.eq_4
  coordEffects.eq_5 coordEffects.eq_6 coordEffects.eq_7 coordEffects.eq_8 coordEffects.eq_9
  coordEffects.eq_10 coordEffects.eq_11 bgEffects.eq_1 bgEffects.eq_2 bgEffects.eq_3
  bgEffects.eq_4 bgEffects.eq_5 bgEffects.eq_6 tookDone.eq_1 tookDone.eq_2 tookDone.eq_3
  tookDone.eq_4 tookDone.eq_5 tookDone.eq_6 tookDone.eq_7 tookDone.eq_8 tookDone.eq_9
  tookDone.eq_10 tookDone.eq_11 shutdownValue.eq_1 shutdownValue.eq_2 shutdownValue.eq_3
  shutdownValue.eq_4 shutdownValue.eq_5 shutdownValue.eq_6 shutdownValue.eq_7
  shutdownValue.eq_8 shutdownValue.eq_9 shutdownValue.eq_10 shutdownValue.eq_11

theorem coordTrace_snoc (t : List Effect) (x : Effect) :
    coordTrace (t ++ [x]) = if x.isBg then coordTrace t else coordTrace t ++ [x] := by
  cases hx : x.isBg <;> simp [coordTrace, List.filter_append, hx]

theorem bgTrace_snoc (t : List Effect) (x : Effect) :
    bgTrace (t ++ [x]) = if x.isBg then bgTrace t ++ [x] else bgTrace t := by
  cases hx : x.isBg <;> simp [bgTrace, List.filter_append, hx]

theorem coordTrace_single (x : Effect) :
    coordTrace [x] = if x.isBg then [] else [x] := by
  cases hx : x.isBg <;> simp [coordTrace, hx]

theorem bgTrace_single (x : Effect) :
    bgTrace [x] = if x.isBg then [x] else [] := by
  cases hx : x.isBg <;> simp [bgTrace, hx]

theorem afterServe_cases (r : Err) :
    (afterServe r = .exited ∧ (r = none ∨ r = some .ErrServerClosed)) ∨
      ∃ e, r = some e ∧ e ≠ .ErrServerClosed ∧ afterServe r = .L29 e := by
  cases r with
  | none => simp [afterServe]
  | some x =>
    by_cases hx : x = .ErrServerClosed
    · subst hx; simp [afterServe]
    · simp [afterServe, hx]

theorem inv_init (addr : String) (c0 : Bool) : Inv addr c0 [] (init addr c0) := by
  constructor <;> simp [init, coordTrace, bgTrace]

set_option maxHeartbeats 4000000 in
theorem inv_step {addr : String} {c0 : Bool} {sched : List Action} {s s' : State} {a : Action}
    (hi : Inv addr c0 sched s) (h : step a s = some s') : Inv addr c0 (sched ++ [a]) s' := by
  obtain ⟨h1, h2, h3, h4, h0, h5, h6, h7, h8, h9, h10, h11, h12, h13, h14, h15⟩ := hi
  cases a
  case coord =>
    cases hpc : s.coord <;> simp [qhttp.step, hpc] at h
    case L41 =>
      rw [h7 hpc] at h
      simp at h
      subst h
      constructor
      case serve_link => simpa using h10
      all_goals simp_all [coordTrace_snoc, bgTrace_snoc, coordTrace_single, bgTrace_single, Effect.isBg,
        shutdownScope]
    all_goals
      subst h
      constructor
      case serve_link => first | simpa using h10 | simp_all
      all_goals simp_all [coordTrace_snoc, bgTrace_snoc, coordTrace_single, bgTrace_single, Effect.isBg,
        shutdownScope]
  case cancel =>
    simp [qhttp.step] at h
    subst h
    constructor
    case serve_link => simpa using h10
    all_goals simp_all
  case bg =>
    cases hbg : s.bg <;> simp [qhttp.step, hbg] at h
    subst h
    constructor
    case serve_link =>
      intro r hr
      have := h10 r (by simpa using hr)
      simp_all
    all_goals simp_all [coordTrace_snoc, bgTrace_snoc, coordTrace_single, bgTrace_single, Effect.isBg,
        shutdownScope]
  case serveReturns r =>
    cases hbg : s.bg <;> simp [qhttp.step, hbg] at h
    subst h
    have hn := h9 (Or.inr hbg)
    rcases afterServe_cases r with ⟨hr, hr2⟩ | ⟨e, hr1, hr2, hr3⟩
    · constructor
      case serve_link =>
        intro r2 hr2
        simp [hn] at hr2
        subst hr2
        simp_all
      all_goals simp_all [coordTrace_snoc, bgTrace_snoc, coordTrace_single, bgTrace_single, Effect.isBg,
        shutdownScope]
    · constructor
      case serve_link =>
        intro r2 hr2
        simp [hn] at hr2
        subst hr2
        simp_all
      all_goals simp_all [coordTrace_snoc, bgTrace_snoc, coordTrace_single, bgTrace_single, Effect.isBg,
        shutdownScope]
  case shutdownReturns r =>
    cases hpc : s.coord <;> simp [qhttp.step, hpc] at h
    cases r <;> simp at h <;> subst h <;> constructor
    case none.serve_link => simpa using h10
    case some.serve_link => simpa using h10
    all_goals simp_all [coordTrace_snoc, bgTrace_snoc, coordTrace_single, bgTrace_single, Effect.isBg,
        shutdownScope]
  case selectRecv =>
    cases hpc : s.coord <;> cases hbg : s.bg <;> simp [qhttp.step, hpc, hbg] at h
    subst h
    constructor
    case serve_link =>
      intro r hr
      have := h10 r (by simpa using hr)
      simp_all
    all_goals simp_all [coordTrace_snoc, bgTrace_snoc, coordTrace_single, bgTrace_single, Effect.isBg,
        shutdownScope]
  case selectDone =>
    cases hpc : s.coord <;> simp [qhttp.step, hpc] at h
    obtain ⟨hd, h⟩ := h
    subst h
    constructor
    case serve_link => simpa using h10
    all_goals simp_all [coordTrace_snoc, bgTrace_snoc, coordTrace_single, bgTrace_single, Effect.isBg,
        shutdownScope]

theorem exec_nil (s : State) : exec [] s = some s := rfl

theorem exec_snoc (sched : List Action) (a : Action) (s : State) :
    exec (sched ++ [a]) s = (exec sched s).bind (step a) := by
  simp [exec, List.foldlM_append]

theorem exec_cons (a : Action) (sched : List Action) (s : State) :
    exec (a :: sched) s = (step a s).bind (exec sched) := by
  simp [exec]

/-- Every state reached from the initial state satisfies the invariant. -/
theorem inv_of_exec {addr : String} {c0 : Bool} (sched : List Action) :
    ∀ s, exec sched (init addr c0) = some s → Inv addr c0 sched s := by
  induction sched using List.reverseRecOn with
  | nil =>
    intro s h
    simp [exec_nil] at h
    subst h
    exact inv_init addr c0
  | append_singleton l a ih =>
    intro s h
    rw [exec_snoc] at h
    cases hl : exec l (init addr c0) with
    | none => simp [hl] at h
    | some m =>
      simp [hl] at h
      exact inv_step (ih m hl) h

theorem filter_isShutdown_coordTrace (t : List Effect) :
    t.filter Effect.isShutdown = (coordTrace t).filter Effect.isShutdown := by
  induction t with
  | nil => rfl
  | cons x xs ih =>
    cases x with
    | Shutdown c => simp [coordTrace, Effect.isShutdown, Effect.isBg, List.filter_cons] at ih ⊢; exact ih
    | log l => cases l <;> simp [coordTrace, Effect.isShutdown, Effect.isBg, List.filter_cons] at ih ⊢ <;> exact ih

/-! ### Claims about `RunServer` -/

/-- C1: in every run in which the coordinating path takes the channel case of the
`select`, `srv.ListenAndServe()` returned one error `e`, it is not
`http.ErrServerClosed`, `RunServer` has returned exactly `e`, and `srv.Shutdown` does not
occur among the effects of the run. Moreover the channel case can always be taken when
the coordinating path waits in the `select` and the goroutine stands at the send of `e`,
and taking it returns `e`. -/
theorem RunServer_fatal_error_verbatim (addr : String) (c0 : Bool) (sched : List Action)
    (s : State) (h : exec sched (init addr c0) = some s) :
    (Action.selectRecv ∈ sched →
      ∃ e, Action.serveReturns (some e) ∈ sched ∧ e ≠ .ErrServerClosed ∧
        (∀ r, Action.serveReturns r ∈ sched → r = some e) ∧
        result s = some (some e) ∧ s.trace.filter Effect.isShutdown = []) ∧
    (∀ e, s.coord = .L34 → s.bg = .L30 e →
      (step .selectRecv s).map result = some (some (some e))) := by
  have hi := inv_of_exec sched s h
  refine ⟨fun hr => ?_, fun e hc hb => ?_⟩
  · obtain ⟨e, he⟩ := hi.recv_iff.mp hr
    have hb : s.bg = .L31 e := (hi.sent_iff e).mpr he
    have hl := hi.bg_link e (Or.inr (Or.inr hb))
    refine ⟨e, hl.1, hl.2, ?_, by simp [result, he], ?_⟩
    · intro r hr
      rcases hi.serve_link r hr with ⟨hx, _⟩ | ⟨e2, h1, _, h3⟩
      · rw [hb] at hx; cases hx
      · rw [hb] at h3; simp at h3; rw [h1, h3]
    · rw [filter_isShutdown_coordTrace, hi.coord_trace, he]
      simp [Effect.isShutdown]
  · simp [step, hc, hb, result]

/-- Witness for C1: the serve loop fails with an accept error, the goroutine logs it and
sends it, the coordinating path receives it and returns it. -/
theorem RunServer_fatal_error_verbatim_witness :
    ∃ s, exec fatalRun (init ":8080" false) = some s ∧
      (Action.selectRecv ∈ fatalRun →
        ∃ e, Action.serveReturns (some e) ∈ fatalRun ∧ e ≠ .ErrServerClosed ∧
          (∀ r, Action.serveReturns r ∈ fatalRun → r = some e) ∧
          result s = some (some e) ∧ s.trace.filter Effect.isShutdown = []) ∧
      (∀ e, s.coord = .L34 → s.bg = .L30 e →
        (step .selectRecv s).map result = some (some (some e))) :=
  ⟨_, rfl, RunServer_fatal_error_verbatim ":8080" false fatalRun _ rfl⟩

/-- C2: a return value nil or `http.ErrServerClosed` of `srv.ListenAndServe()` makes the
goroutine end without reaching the send, so the channel case is never taken in such a
run; every value that stands at the send or was sent differs from `ErrServerClosed`;
`RunServer` returns `ErrServerClosed` only if `srv.Shutdown` itself returned that value;
and once `Shutdown` returned nil the result is nil (at the latest after the next
statement of the coordinating path), whatever `ListenAndServe` returned. -/
theorem RunServer_listener_closed_filtered (addr : String) (c0 : Bool) (sched : List Action)
    (s : State) (h : exec sched (init addr c0) = some s) :
    (∀ r, Action.serveReturns r ∈ sched → (r = none ∨ r = some .ErrServerClosed) →
      s.bg = .exited ∧ Action.selectRecv ∉ sched) ∧
    (∀ e, (s.bg = .L30 e ∨ s.bg = .L31 e) → e ≠ .ErrServerClosed) ∧
    (result s = some (some .ErrServerClosed) →
      Action.shutdownReturns (some .ErrServerClosed) ∈ sched ∧ Action.selectRecv ∉ sched) ∧
    (Action.shutdownReturns none ∈ sched →
      result s = some none ∨ (exec [.coord] s).map result = some (some none)) := by
  have hi := inv_of_exec sched s h
  refine ⟨fun r hr hn => ?_, fun e he => ?_, fun hres => ?_, fun hsd => ?_⟩
  · rcases hi.serve_link r hr with ⟨hx, _⟩ | ⟨e, h1, h2, _⟩
    · refine ⟨hx, fun hrecv => ?_⟩
      obtain ⟨e, he⟩ := hi.recv_iff.mp hrecv
      have := (hi.sent_iff e).mpr he
      rw [hx] at this
      cases this
    · subst h1
      rcases hn with hn | hn
      · cases hn
      · simp at hn; exact absurd hn h2
  · exact (hi.bg_link e (Or.inr he)).2
  · cases hc : s.coord <;> simp [result, hc] at hres
    case ret36 e =>
      subst hres
      exact absurd rfl (hi.bg_link _ (Or.inr (Or.inr ((hi.sent_iff _).mpr hc)))).2
    case ret43 e =>
      subst hres
      refine ⟨(hi.shut_iff _).mpr (by simp [hc]), fun hrecv => ?_⟩
      obtain ⟨e, he⟩ := hi.recv_iff.mp hrecv
      rw [hc] at he
      cases he
  · have hv := (hi.shut_iff none).mp hsd
    cases hc : s.coord <;> simp [hc] at hv
    · right; simp [exec, step, hc, result]
    · left; simp [result, hc]

/-- Witness for C2: a cancellation-triggered run in which `ListenAndServe` returns
`http.ErrServerClosed` and `Shutdown` returns nil; the result is nil. -/
theorem RunServer_listener_closed_filtered_witness :
    ∃ s, exec gracefulRun (init ":8080" false) = some s ∧
      Action.serveReturns (some .ErrServerClosed) ∈ gracefulRun ∧ result s = some none ∧
      ((∀ r, Action.serveReturns r ∈ gracefulRun → (r = none ∨ r = some .ErrServerClosed) →
        s.bg = .exited ∧ Action.selectRecv ∉ gracefulRun) ∧
      (∀ e, (s.bg = .L30 e ∨ s.bg = .L31 e) → e ≠ .ErrServerClosed) ∧
      (result s = some (some .ErrServerClosed) →
        Action.shutdownReturns (some .ErrServerClosed) ∈ gracefulRun ∧
          Action.selectRecv ∉ gracefulRun) ∧
      (Action.shutdownReturns none ∈ gracefulRun →
        result s = some none ∨ (exec [.coord] s).map result = some (some none))) :=
  ⟨_, rfl, by decide, rfl,
    RunServer_listener_closed_filtered ":8080" false gracefulRun _ rfl⟩

/-- C3: in every run in which the coordinating path takes the cancellation case, the
scope had fired; `srv.Shutdown` is invoked at most once, and once `RunServer` has
returned exactly once, with `context.WithTimeout(context.Background(), 5*time.Second)`
(5000000000 ns, parent `Background`); the result is the value `Shutdown` returned,
unchanged, so it is nil exactly when `Shutdown` returned nil. From the cancellation case
the coordinating path reaches that return whatever `Shutdown` returns. -/
theorem RunServer_cancel_shutdown (addr : String) (c0 : Bool) (sched : List Action)
    (s : State) (h : exec sched (init addr c0) = some s) (hd : Action.selectDone ∈ sched) :
    (c0 = true ∨ Action.cancel ∈ sched) ∧
    (s.trace.filter Effect.isShutdown = [] ∨
      s.trace.filter Effect.isShutdown = [.Shutdown (.WithTimeout .Background 5000000000)]) ∧
    (∀ r, result s = some r →
      s.trace.filter Effect.isShutdown = [.Shutdown (.WithTimeout .Background 5000000000)] ∧
      Action.shutdownReturns r ∈ sched ∧
      (∀ r2, Action.shutdownReturns r2 ∈ sched → r2 = r) ∧
      (r = none ↔ Action.shutdownReturns none ∈ sched)) ∧
    (s.coord = .L38 → ∀ r,
      (exec [.coord, .coord, .shutdownReturns r, .coord] s).map result = some (some r)) := by
  have hi := inv_of_exec sched s h
  have ht := hi.done_sel_iff.mp hd
  have hf := filter_isShutdown_coordTrace s.trace
  rw [hi.coord_trace] at hf
  have hsh := hi.shut_iff
  refine ⟨hi.done_iff.mp (hi.fired ht), ?_, ?_, ?_⟩
  · rw [hf]
    cases hc : s.coord <;> simp [hc, Effect.isShutdown, shutdownScope, Second] at ht ⊢
  · intro r hr
    rw [hf]
    cases hc : s.coord <;>
      simp [hc, Effect.isShutdown, shutdownScope, Second, result] at ht hr hsh ⊢
    · subst hr
      refine ⟨(hsh _).mpr rfl, fun r2 h2 => (hsh r2).mp h2, ?_⟩
      simp [hsh]
    · subst hr
      refine ⟨(hsh _).mpr rfl, fun r2 h2 => (hsh r2).mp h2, ?_⟩
      simp [hsh]
  · intro hc r
    cases r <;> simp [exec, step, hc, result]

/-- Witness for C3: the scope is cancelled and `Shutdown` returns its deadline error,
which is the result. -/
theorem RunServer_cancel_shutdown_witness :
    ∃ s, exec timeoutRun (init ":8080" false) = some s ∧ Action.selectDone ∈ timeoutRun ∧
      result s = some (some .DeadlineExceeded) ∧
      ((false = true ∨ Action.cancel ∈ timeoutRun) ∧
      (s.trace.filter Effect.isShutdown = [] ∨
        s.trace.filter Effect.isShutdown = [.Shutdown (.WithTimeout .Background 5000000000)]) ∧
      (∀ r, result s = some r →
        s.trace.filter Effect.isShutdown = [.Shutdown (.WithTimeout .Background 5000000000)] ∧
        Action.shutdownReturns r ∈ timeoutRun ∧
        (∀ r2, Action.shutdownReturns r2 ∈ timeoutRun → r2 = r) ∧
        (r = none ↔ Action.shutdownReturns none ∈ timeoutRun)) ∧
      (s.coord = .L38 → ∀ r,
        (exec [.coord, .coord, .shutdownReturns r, .coord] s).map result = some (some r))) :=
  ⟨_, rfl, by decide, rfl,
    RunServer_cancel_shutdown ":8080" false timeoutRun _ rfl (by decide)⟩

/-- Once the coordinating path has taken the cancellation case, a goroutine that stands at
the send of line 30 stays there under every further schedule: nothing receives. -/
theorem send_blocked_forever (e : GoError) (sched : List Action) :
    ∀ s s2, tookDone s.coord = true → s.bg = .L30 e → exec sched s = some s2 →
      tookDone s2.coord = true ∧ s2.bg = .L30 e := by
  induction sched with
  | nil =>
    intro s s2 ht hb h
    simp [exec_nil] at h
    subst h
    exact ⟨ht, hb⟩
  | cons a l ih =>
    intro s s2 ht hb h
    rw [exec_cons] at h
    cases hm : step a s with
    | none => simp [hm] at h
    | some m =>
      simp [hm] at h
      have hk : tookDone m.coord = true ∧ m.bg = .L30 e := by
        cases a
        case shutdownReturns r =>
          cases hc : s.coord <;> simp [step, hc] at hm
          cases r <;> simp at hm <;> subst hm <;> simp [hb]
        case selectRecv =>
          cases hc : s.coord <;> simp [step, hc, hb] at hm
          simp [hc] at ht
        case coord =>
          cases hc : s.coord <;> simp [step, hc] at hm ht
          case L41 =>
            cases hx : s.shutDownCtx <;> simp [hx] at hm
            subst hm
            simp [hb]
          all_goals (subst hm; simp [hb])
        case selectDone =>
          cases hc : s.coord <;> simp [step, hc] at hm ht
        all_goals
          simp [step, hb] at hm
          try (subst hm; simp [hb, ht])
      exact ih m s2 hk.1 hk.2 h

/-- After `RunServer` has returned, the coordinating path takes no further step. -/
theorem returned_stays (sched : List Action) :
    ∀ s s2 r, result s = some r → exec sched s = some s2 → result s2 = some r := by
  induction sched with
  | nil =>
    intro s s2 r hr h
    simp [exec_nil] at h
    subst h
    exact hr
  | cons a l ih =>
    intro s s2 r hr h
    rw [exec_cons] at h
    cases hm : step a s with
    | none => simp [hm] at h
    | some m =>
      simp [hm] at h
      refine ih m s2 r ?_ h
      cases hc : s.coord <;> simp [result, hc] at hr <;> subst hr <;>
        cases a <;> simp [step, hc] at hm <;>
        first
          | (subst hm; simp [result, hc])
          | (cases hb : s.bg <;> simp [hb] at hm; subst hm; simp [result, hc])

/-- C4, at the failing input: the scope is cancelled, `Shutdown` returns nil and
`RunServer` returns nil; `ListenAndServe` then fails with a bind error. The goroutine logs
it and reaches the send on the channel made without a buffer, and under every further
schedule it still stands at that send. -/
theorem RunServer_late_error_blocks_goroutine :
    ∃ s, exec lateErrorRun (init ":8080" false) = some s ∧ result s = some none ∧
      s.bg = .L30 bindErr ∧
      ∀ sched s2, exec sched s = some s2 → s2.bg = .L30 bindErr ∧ result s2 = some none := by
  refine ⟨_, rfl, rfl, rfl, ?_⟩
  intro sched s2 h
  have hb := send_blocked_forever bindErr sched _ s2 (by rfl) (by rfl) h
  have hr := returned_stays sched _ s2 none (by rfl) h
  exact ⟨hb.2, hr⟩

/-- C5, counterexample: binding fails and the goroutine stands at the send of the bind
error, but the scope was already cancelled at the call and the `select` takes the
cancellation case: `Shutdown` returns nil and `RunServer` returns nil, not the bind
error. -/
theorem RunServer_bind_error_not_surfaced :
    ∃ s, exec bindCancelledRun (init ":8080" true) = some s ∧
      Action.serveReturns (some bindErr) ∈ bindCancelledRun ∧
      s.bg = .L30 bindErr ∧ result s = some none ∧ result s ≠ some (some bindErr) :=
  ⟨_, rfl, by decide, rfl, rfl, by decide⟩

/-- C5, amended: when `srv.ListenAndServe()` fails with an error `e` other than
`http.ErrServerClosed` (a bind error is one), the goroutine had been started before
(the coordinating path is past the `go` statement); if the channel case is taken the
result is `e`; and if the scope has not fired, `RunServer` can only return `e` and does
so after at most the log of line 29 and the receive. -/
theorem RunServer_bind_error_via_channel (addr : String) (c0 : Bool) (sched : List Action)
    (s : State) (e : GoError) (h : exec sched (init addr c0) = some s)
    (hb : Action.serveReturns (some e) ∈ sched) (he : e ≠ .ErrServerClosed) :
    (s.bg ≠ .notStarted ∧ s.coord ≠ .L17 ∧ s.coord ≠ .L26) ∧
    (Action.selectRecv ∈ sched → result s = some (some e)) ∧
    ((c0 = false ∧ Action.cancel ∉ sched) →
      (∀ r, result s = some r → r = some e) ∧
      ∃ rest, rest.length ≤ 2 ∧ (exec rest s).map result = some (some (some e))) := by
  have hi := inv_of_exec sched s h
  have hbg : s.bg = .L29 e ∨ s.bg = .L30 e ∨ s.bg = .L31 e := by
    rcases hi.serve_link _ hb with ⟨_, hx⟩ | ⟨e2, h1, _, h3⟩
    · rcases hx with hx | hx
      · cases hx
      · simp at hx; exact absurd hx he
    · simp at h1; subst h1; exact h3
  have hns : s.bg ≠ .notStarted := by
    rcases hbg with h1 | h1 | h1 <;> rw [h1] <;> simp
  have hrecv : ∀ e2, s.coord = .ret36 e2 → e2 = e := by
    intro e2 h2
    have := (hi.sent_iff e2).mpr h2
    rcases hbg with h1 | h1 | h1 <;> rw [h1] at this <;> simp at this
    exact this.symm
  refine ⟨⟨hns, ?_, ?_⟩, ?_, ?_⟩
  · exact fun hc => hns (hi.early.mpr (Or.inl hc))
  · exact fun hc => hns (hi.early.mpr (Or.inr hc))
  · intro hr
    obtain ⟨e2, h2⟩ := hi.recv_iff.mp hr
    rw [← hrecv e2 h2]
    simp [result, h2]
  · rintro ⟨hc0, hcan⟩
    have hnd : ¬ s.ctxDone = true := fun hd => by
      rcases hi.done_iff.mp hd with h1 | h1
      · rw [hc0] at h1; cases h1
      · exact hcan h1
    have hnt : ¬ tookDone s.coord = true := fun ht => hnd (hi.fired ht)
    have hearly := hi.early
    cases hc : s.coord <;> simp [hc] at hnt hearly
    · exact absurd hearly hns
    · exact absurd hearly hns
    · refine ⟨by simp [result, hc], ?_⟩
      rcases hbg with h1 | h1 | h1
      · exact ⟨[.bg, .selectRecv], by simp, by simp [exec, step, hc, h1, result]⟩
      · exact ⟨[.selectRecv], by simp, by simp [exec, step, hc, h1, result]⟩
      · have := (hi.sent_iff e).mp h1
        rw [hc] at this
        cases this
    · rename_i e2
      have h2 := hrecv e2 hc
      subst h2
      exact ⟨by simp [result, hc], [], by simp, by simp [exec, result, hc]⟩

/-- Witness for C5 (amended): binding fails while the scope is live and the bind error
is the result. -/
theorem RunServer_bind_error_via_channel_witness :
    ∃ s, exec bindRun (init ":8080" false) = some s ∧
      Action.serveReturns (some bindErr) ∈ bindRun ∧ bindErr ≠ .ErrServerClosed ∧
      result s = some (some bindErr) ∧
      ((s.bg ≠ .notStarted ∧ s.coord ≠ .L17 ∧ s.coord ≠ .L26) ∧
      (Action.selectRecv ∈ bindRun → result s = some (some bindErr)) ∧
      ((false = false ∧ Action.cancel ∉ bindRun) →
        (∀ r, result s = some r → r = some bindErr) ∧
        ∃ rest, rest.length ≤ 2 ∧ (exec rest s).map result = some (some (some bindErr)))) :=
  ⟨_, rfl, by decide, by decide, rfl,
    RunServer_bind_error_via_channel ":8080" false bindRun _ bindErr rfl (by decide)
      (by decide)⟩

/-- C6, counterexample: a cancellation-triggered run. Its effects are the start line,
the invocation of `srv.Shutdown`, and the line of the graceful exit; the only lifecycle
event logged before `Shutdown` is the start, so no shutdown-initiation event precedes the
call. -/
theorem RunServer_no_shutdown_initiation_logged :
    ∃ s, exec cancelRun (init ":8080" false) = some s ∧ Action.selectDone ∈ cancelRun ∧
      s.trace = [.log (.listening ":8080"), .Shutdown (.WithTimeout .Background 5000000000),
                 .log .gracefulExit] ∧
      loggedBeforeShutdown s.trace = [.start ":8080"] ∧
      LifecycleEvent.shutdownInitiation ∉ loggedBeforeShutdown s.trace :=
  ⟨_, rfl, by decide, rfl, rfl, by decide⟩

/-- C6, amended: in every reachable state, once line 17 has run the first effect is the
start line with the address; a fatal serve error that stands at the send or was sent has
been logged; no logged line is a shutdown-initiation event, and when `srv.Shutdown` is
invoked the coordinating path has logged the start line only; after `Shutdown` returned
nil the coordinating path ends with the graceful-exit line, after it returned an error
with the line of that error. -/
theorem RunServer_logged_events (addr : String) (c0 : Bool) (sched : List Action)
    (s : State) (h : exec sched (init addr c0) = some s) :
    (s.coord ≠ .L17 → s.trace.head? = some (.log (.listening addr))) ∧
    (∀ e, (s.bg = .L30 e ∨ s.bg = .L31 e) → Effect.log (.serverError e) ∈ s.trace) ∧
    (∀ l, Effect.log l ∈ s.trace → l.event ≠ .shutdownInitiation) ∧
    (s.coord = .L41wait →
      coordTrace s.trace = [.log (.listening addr), .Shutdown (.WithTimeout .Background 5000000000)]) ∧
    (s.coord = .ret48 →
      coordTrace s.trace = [.log (.listening addr),
        .Shutdown (.WithTimeout .Background 5000000000), .log .gracefulExit]) ∧
    (∀ e, s.coord = .ret43 e →
      coordTrace s.trace = [.log (.listening addr),
        .Shutdown (.WithTimeout .Background 5000000000), .log (.shutdownError e)]) := by
  have hi := inv_of_exec sched s h
  have hct := hi.coord_trace
  refine ⟨hi.head, ?_, ?_, ?_, ?_, ?_⟩
  · intro e he
    have hm : Effect.log (.serverError e) ∈ bgTrace s.trace := by
      rw [hi.bg_trace]
      rcases he with he | he <;> simp [he]
    exact (List.mem_filter.mp hm).1
  · intro l _
    cases l <;> simp [LogLine.event]
  · intro hc
    rw [hct, hc]
    simp [shutdownScope, Second]
  · intro hc
    rw [hct, hc]
    simp [shutdownScope, Second]
  · intro e hc
    rw [hct, hc]
    simp [shutdownScope, Second]

/-- Witness for C6 (amended): the run in which `Shutdown` reaches its deadline. -/
theorem RunServer_logged_events_witness :
    ∃ s, exec timeoutRun (init ":8080" false) = some s ∧
      s.trace = [.log (.listening ":8080"), .Shutdown (.WithTimeout .Background 5000000000),
                 .log (.shutdownError .DeadlineExceeded)] ∧
      ((s.coord ≠ .L17 → s.trace.head? = some (.log (.listening ":8080"))) ∧
      (∀ e, (s.bg = .L30 e ∨ s.bg = .L31 e) → Effect.log (.serverError e) ∈ s.trace) ∧
      (∀ l, Effect.log l ∈ s.trace → l.event ≠ .shutdownInitiation) ∧
      (s.coord = .L41wait →
        coordTrace s.trace =
          [.log (.listening ":8080"), .Shutdown (.WithTimeout .Background 5000000000)]) ∧
      (s.coord = .ret48 →
        coordTrace s.trace = [.log (.listening ":8080"),
          .Shutdown (.WithTimeout .Background 5000000000), .log .gracefulExit]) ∧
      (∀ e, s.coord = .ret43 e →
        coordTrace s.trace = [.log (.listening ":8080"),
          .Shutdown (.WithTimeout .Background 5000000000), .log (.shutdownError e)])) :=
  ⟨_, rfl, rfl, RunServer_logged_events ":8080" false timeoutRun _ rfl⟩

end qhttp

namespace glog

/-! ### `ShortLevel.String` and `ClassicFormatter.Format` -/

/-- C8: for every level value, `ShortLevel.String` returns a string of exactly one
character; it is `T`, `D`, `I`, `W`, `E`, `F`, `P` at the logrus levels Trace, Debug,
Info, Warn, Error, Fatal, Panic, these seven letters are pairwise distinct, and the
result is `X` exactly at the values that are none of the seven levels. -/
theorem ShortLevel_String_one_char (level : Nat) :
    (ShortLevel.String level).length = 1 ∧
    ShortLevel.String TraceLevel = "T" ∧ ShortLevel.String DebugLevel = "D" ∧
    ShortLevel.String InfoLevel = "I" ∧ ShortLevel.String WarnLevel = "W" ∧
    ShortLevel.String ErrorLevel = "E" ∧ ShortLevel.String FatalLevel = "F" ∧
    ShortLevel.String PanicLevel = "P" ∧
    ["T", "D", "I", "W", "E", "F", "P"].Nodup ∧
    (ShortLevel.String level = "X" ↔
      level ∉ [TraceLevel, DebugLevel, InfoLevel, WarnLevel, ErrorLevel, FatalLevel,
        PanicLevel]) := by
  refine ⟨?_, by decide, by decide, by decide, by decide, by decide, by decide, by decide,
    by decide, ?_⟩
  · unfold ShortLevel.String
    split_ifs <;> decide
  · unfold ShortLevel.String
    split_ifs <;> simp_all

end glog

namespace GoMap

theorem keys_set {α : Type} (m : List (String × α)) (k : String) (v : α) :
    keys (set m k v) = if k ∈ keys m then keys m else keys m ++ [k] := by
  unfold set
  split_ifs with hk
  · simp only [keys, List.map_map]
    apply List.map_congr_left
    intro p _
    by_cases hp : p.1 = k <;> simp [hp]
  · simp [keys]

theorem nodup_keys_set {α : Type} (m : List (String × α)) (k : String) (v : α)
    (h : (keys m).Nodup) : (keys (set m k v)).Nodup := by
  rw [keys_set]
  split_ifs with hk
  · exact h
  · exact List.Nodup.append h (List.nodup_singleton k) (by simpa using hk)

theorem mem_keys_set {α : Type} (m : List (String × α)) (k : String) (v : α) (x : String)
    (h : x ∈ keys m) : x ∈ keys (set m k v) := by
  rw [keys_set]
  split_ifs
  · exact h
  · exact List.mem_append_left _ h

end GoMap

namespace glog

theorem prefixFieldClashes_keys (data : Fields) (hasCaller : Bool)
    (h : (GoMap.keys data).Nodup) :
    (GoMap.keys (prefixFieldClashes data hasCaller)).Nodup ∧
      ∀ x ∈ GoMap.keys data, x ∈ GoMap.keys (prefixFieldClashes data hasCaller) := by
  have step : ∀ (d : Fields) (src dst : String),
      ((GoMap.keys d).Nodup ∧ ∀ x ∈ GoMap.keys data, x ∈ GoMap.keys d) →
      ((GoMap.keys (match GoMap.get? d src with
          | some t => GoMap.set d dst t
          | none => d)).Nodup ∧
        ∀ x ∈ GoMap.keys data, x ∈ GoMap.keys (match GoMap.get? d src with
          | some t => GoMap.set d dst t
          | none => d)) := by
    intro d src dst hd
    cases GoMap.get? d src with
    | none => exact hd
    | some t =>
      exact ⟨GoMap.nodup_keys_set d dst t hd.1,
        fun x hx => GoMap.mem_keys_set d dst t x (hd.2 x hx)⟩
  have h0 : (GoMap.keys data).Nodup ∧ ∀ x ∈ GoMap.keys data, x ∈ GoMap.keys data :=
    ⟨h, fun _ hx => hx⟩
  have h1 := step data "time" "fields.time" h0
  have h2 := step _ "msg" "fields.msg" h1
  have h3 := step _ "level" "fields.level" h2
  unfold prefixFieldClashes
  cases hasCaller with
  | false => simpa using h3
  | true =>
    have h4 := step _ "func" "fields.func" h3
    have h5 := step _ "file" "fields.file" h4
    simpa using h5

theorem appendValue_eq (b : String) (v : Value) : appendValue b v = b ++ v.text := by
  cases v <;> rfl

theorem appendKeyValue_eq (b k : String) (v : Value) (hb : b.length > 0) :
    appendKeyValue b k v = b ++ (" " ++ k ++ "=" ++ v.text) := by
  simp [appendKeyValue, appendValue_eq, hb, String.append_assoc]

theorem appendValueOnly_pos (b : String) (v : Value) (hv : v.text.length > 0) :
    (appendValueOnly b v).length > 0 := by
  simp only [appendValueOnly, appendValue_eq, String.length_append]
  omega

theorem foldl_appendKeyValue (data : Fields) (ks : List String) :
    ∀ b : String, b.length > 0 →
      ks.foldl (fun b k => appendKeyValue b k (valueOf data k)) b = b ++ fieldsText data ks := by
  induction ks with
  | nil => intro b _; simp [fieldsText]
  | cons k ks ih =>
    intro b hb
    have hpos : (appendKeyValue b k (valueOf data k)).length > 0 := by
      rw [appendKeyValue_eq b k _ hb, String.length_append]
      omega
    rw [List.foldl_cons, ih _ hpos, appendKeyValue_eq b k _ hb]
    simp [fieldsText, String.append_assoc]

theorem appendValueOnly_eq (b : String) (v : Value) :
    appendValueOnly b v = (if b.length > 0 then b ++ " " else b) ++ v.text := by
  simp only [appendValueOnly, appendValue_eq]

theorem format_tail (data : Fields) (b0 tag msg : String) (ks : List String)
    (ht : tag.length > 0) :
    ∃ pre, (ks.foldl (fun b k => appendKeyValue b k (valueOf data k))
        (if msg.length > 0 then appendValueOnly (appendValueOnly b0 (.str tag)) (.str msg)
          else appendValueOnly b0 (.str tag))) ++ "\n"
      = pre ++ tag ++ (if msg.length > 0 then " " ++ msg else "") ++ fieldsText data ks
          ++ "\n" := by
  refine ⟨if b0.length > 0 then b0 ++ " " else b0, ?_⟩
  have h1 : (appendValueOnly b0 (.str tag)).length > 0 := appendValueOnly_pos b0 _ ht
  have e1 : appendValueOnly b0 (.str tag) = (if b0.length > 0 then b0 ++ " " else b0) ++ tag :=
    appendValueOnly_eq b0 _
  by_cases hm : msg.length > 0
  · have h2 : (appendValueOnly (appendValueOnly b0 (.str tag)) (.str msg)).length > 0 :=
      appendValueOnly_pos _ _ hm
    rw [if_pos hm, if_pos hm, foldl_appendKeyValue data ks _ h2]
    have e2 : appendValueOnly (appendValueOnly b0 (.str tag)) (.str msg)
        = appendValueOnly b0 (.str tag) ++ " " ++ msg := by
      rw [appendValueOnly_eq (appendValueOnly b0 (.str tag)), if_pos h1]
      rfl
    rw [e2, e1]
    simp only [String.append_assoc]
  · rw [if_neg hm, if_neg hm, foldl_appendKeyValue data ks _ h1, e1]
    simp only [String.append_assoc, String.empty_append]

/-- With sorting on and no `SortingFunc`, `Format` is the writes that follow the
timestamp and the caller, applied to the buffer those two leave. -/
theorem format_unfold (env : Env) (tf : String) (dt tc cs sf : Bool) (entry : Entry) :
    ∃ b0, ClassicFormatter.Format env ⟨tf, dt, tc, cs, sf, false, none⟩ entry =
      ((sortStrings (GoMap.keys (prefixFieldClashes entry.Data entry.HasCaller))).foldl
        (fun b k => appendKeyValue b k
          (valueOf (prefixFieldClashes entry.Data entry.HasCaller) k))
        (if entry.Message.length > 0 then
          appendValueOnly (appendValueOnly b0
            (.str ("[" ++ ShortLevel.String entry.Level ++ "]"))) (.str entry.Message)
          else appendValueOnly b0 (.str ("[" ++ ShortLevel.String entry.Level ++ "]")))
        ++ "\n", none) :=
  ⟨_, rfl⟩

theorem trailingNewlines_append_newline (s : String) :
    trailingNewlines (s ++ "\n") = trailingNewlines s + 1 := by
  have h : ("\n" : String).data = ['\n'] := rfl
  simp [trailingNewlines, String.data_append, h, List.takeWhile_cons]

/-- C7, counterexample: sorting on, no `SortingFunc`, an entry without fields whose
message is `m` followed by a newline. `Format` writes the message as it is and appends
its own `'\n'`: the output ends with two newlines, not with a single one. -/
theorem Format_output_ends_with_two_newlines :
    sampleFormatter.DisableSorting = false ∧ sampleFormatter.SortingFunc = none ∧
    (GoMap.keys newlineEntry.Data).Nodup ∧
    ClassicFormatter.Format ⟨"2006-01-02", id⟩ sampleFormatter newlineEntry =
      ("[I] m\n\n", none) ∧
    trailingNewlines (ClassicFormatter.Format ⟨"2006-01-02", id⟩ sampleFormatter
      newlineEntry).1 = 2 := by
  have hF : ClassicFormatter.Format ⟨"2006-01-02", id⟩ sampleFormatter newlineEntry =
      ("[I] m\n\n", none) := by
    simp [ClassicFormatter.Format, sampleFormatter, newlineEntry, prefixFieldClashes,
      GoMap.get?, GoMap.set, GoMap.keys, Entry.HasCaller, appendValueOnly, appendValue,
      appendKeyValue, sortStrings, ShortLevel.String, InfoLevel, TraceLevel, DebugLevel,
      List.lookup, valueOf]
    decide
  refine ⟨rfl, rfl, by decide, hF, ?_⟩
  rw [hF]
  decide

/-- C7, amended: with `DisableSorting` false and `SortingFunc` nil, for an entry whose
data is a map (distinct keys), `Format` returns a nil error and the text
`pre [L] message fields \n`: after the level tag and the message (written only when not
empty) come the fields as ` key=value`, one for each key of `entry.Data` as
`prefixFieldClashes` leaves it, each key exactly once, in strictly ascending order, and
then the one `'\n'` that `Format` appends. The keys the entry came with are among them.
The output ends with one newline more than the text before the appended one, so with a
single `'\n'` exactly when that text does not end in a newline itself. -/
theorem Format_sorted_fields (env : Env) (f : ClassicFormatter) (entry : Entry)
    (hs : f.DisableSorting = false) (hn : f.SortingFunc = none)
    (hk : (GoMap.keys entry.Data).Nodup) :
    ∃ pre ks,
      ClassicFormatter.Format env f entry =
        (pre ++ ("[" ++ ShortLevel.String entry.Level ++ "]") ++
          (if entry.Message.length > 0 then " " ++ entry.Message else "") ++
          fieldsText (prefixFieldClashes entry.Data entry.HasCaller) ks ++ "\n", none) ∧
      ks.Sorted (· < ·) ∧
      ks.Perm (GoMap.keys (prefixFieldClashes entry.Data entry.HasCaller)) ∧
      ks.Nodup ∧ (∀ k ∈ GoMap.keys entry.Data, k ∈ ks) ∧
      trailingNewlines (ClassicFormatter.Format env f entry).1 =
        trailingNewlines (pre ++ ("[" ++ ShortLevel.String entry.Level ++ "]") ++
          (if entry.Message.length > 0 then " " ++ entry.Message else "") ++
          fieldsText (prefixFieldClashes entry.Data entry.HasCaller) ks) + 1 := by
  obtain ⟨tf, dt, tc, cs, sf, ds, sfn⟩ := f
  simp only at hs hn
  subst hs hn
  have hd := prefixFieldClashes_keys entry.Data entry.HasCaller hk
  have hperm : (sortStrings (GoMap.keys (prefixFieldClashes entry.Data entry.HasCaller))).Perm
      (GoMap.keys (prefixFieldClashes entry.Data entry.HasCaller)) :=
    List.perm_insertionSort _ _
  have hnd : (sortStrings (GoMap.keys (prefixFieldClashes entry.Data entry.HasCaller))).Nodup :=
    hperm.nodup_iff.mpr hd.1
  have hsorted : (sortStrings
      (GoMap.keys (prefixFieldClashes entry.Data entry.HasCaller))).Sorted (· < ·) :=
    (List.sorted_insertionSort _ _).lt_of_le hnd
  have htag : ("[" ++ ShortLevel.String entry.Level ++ "]").length > 0 := by
    rw [String.length_append]
    have : "]".length = 1 := by decide
    omega
  obtain ⟨b0, hF⟩ := format_unfold env tf dt tc cs sf entry
  obtain ⟨pre, hpre⟩ := format_tail (prefixFieldClashes entry.Data entry.HasCaller) b0
    ("[" ++ ShortLevel.String entry.Level ++ "]") entry.Message
    (sortStrings (GoMap.keys (prefixFieldClashes entry.Data entry.HasCaller))) htag
  have hEq : ClassicFormatter.Format env ⟨tf, dt, tc, cs, sf, false, none⟩ entry =
      (pre ++ ("[" ++ ShortLevel.String entry.Level ++ "]") ++
        (if entry.Message.length > 0 then " " ++ entry.Message else "") ++
        fieldsText (prefixFieldClashes entry.Data entry.HasCaller)
          (sortStrings (GoMap.keys (prefixFieldClashes entry.Data entry.HasCaller))) ++ "\n",
        none) := by
    rw [hF, hpre]
  refine ⟨pre, _, hEq, hsorted, hperm, hnd,
    fun k hk2 => hperm.mem_iff.mpr (hd.2 k hk2), ?_⟩
  rw [hEq]
  exact trailingNewlines_append_newline _

/-- Witness for C7: an entry with the fields `pkg`, `time`, `addr`; `prefixFieldClashes`
adds `fields.time`, and the four fields are written in ascending order. -/
theorem Format_sorted_fields_witness :
    sampleFormatter.DisableSorting = false ∧ sampleFormatter.SortingFunc = none ∧
    (GoMap.keys sampleEntry.Data).Nodup ∧
    ClassicFormatter.Format ⟨"2006-01-02", id⟩ sampleFormatter sampleEntry =
      ("[I] started addr=:8080 fields.time=7 pkg=http time=7\n", none) ∧
    ∃ pre ks,
      ClassicFormatter.Format ⟨"2006-01-02", id⟩ sampleFormatter sampleEntry =
        (pre ++ ("[" ++ ShortLevel.String sampleEntry.Level ++ "]") ++
          (if sampleEntry.Message.length > 0 then " " ++ sampleEntry.Message else "") ++
          fieldsText (prefixFieldClashes sampleEntry.Data sampleEntry.HasCaller) ks ++ "\n",
          none) ∧
      ks.Sorted (· < ·) ∧
      ks.Perm (GoMap.keys (prefixFieldClashes sampleEntry.Data sampleEntry.HasCaller)) ∧
      ks.Nodup ∧ (∀ k ∈ GoMap.keys sampleEntry.Data, k ∈ ks) ∧
      trailingNewlines
          (ClassicFormatter.Format ⟨"2006-01-02", id⟩ sampleFormatter sampleEntry).1 =
        trailingNewlines (pre ++ ("[" ++ ShortLevel.String sampleEntry.Level ++ "]") ++
          (if sampleEntry.Message.length > 0 then " " ++ sampleEntry.Message else "") ++
          fieldsText (prefixFieldClashes sampleEntry.Data sampleEntry.HasCaller) ks) + 1 :=
  ⟨rfl, rfl, by decide,
    by
      simp [ClassicFormatter.Format, sampleFormatter, sampleEntry, prefixFieldClashes,
        GoMap.get?, GoMap.set, GoMap.keys, Entry.HasCaller, appendValueOnly, appendValue,
        appendKeyValue, sortStrings, ShortLevel.String, InfoLevel, TraceLevel, DebugLevel,
        List.lookup, valueOf]
      decide,
    Format_sorted_fields ⟨"2006-01-02", id⟩ sampleFormatter sampleEntry rfl rfl (by decide)⟩

end glog

namespace GoMap

theorem get?_set {α : Type} (m : List (String × α)) (k : String) (v : α) (c : String) :
    get? (set m k v) c = if c = k then some v else get? m c := by
  unfold set get?
  split_ifs with hk hc hc
  · subst hc
    induction m with
    | nil => simp [keys] at hk
    | cons p m ih =>
      by_cases hp : p.1 = c
      · simp only [List.map_cons, if_pos hp]
        rw [List.lookup_cons]
        simp
      · have hk2 : c ∈ keys m := by
          simp [keys] at hk
          rcases hk with hk | hk
          · exact absurd hk.symm hp
          · simpa [keys] using hk
        have hne : (c == p.1) = false := by simpa using Ne.symm hp
        simp only [List.map_cons, hp, if_false]
        rw [show p = (p.1, p.2) from rfl, List.lookup_cons, hne]
        exact ih hk2
  · clear hk
    induction m with
    | nil => rfl
    | cons p m ih =>
      by_cases hp : p.1 = k
      · have hne : (c == k) = false := by simpa using hc
        simp only [List.map_cons, hp, if_true]
        rw [List.lookup_cons, hne]
        rw [show p = (p.1, p.2) from rfl, List.lookup_cons, hp, hne]
        exact ih
      · simp only [List.map_cons, hp, if_false]
        rw [show p = (p.1, p.2) from rfl, List.lookup_cons, List.lookup_cons]
        cases c == p.1
        · exact ih
        · rfl
  · subst hc
    induction m with
    | nil => simp [List.lookup]
    | cons p m ih =>
      have hp : ¬ p.1 = c := fun h => hk (by simp [keys, h])
      have hk2 : c ∉ keys m := fun h => hk (by simp [keys] at h ⊢; exact Or.inr h)
      have hne : (c == p.1) = false := by simpa using Ne.symm hp
      rw [List.cons_append, show p = (p.1, p.2) from rfl, List.lookup_cons, hne]
      exact ih hk2
  · induction m with
    | nil =>
      have hne : (c == k) = false := by simpa using hc
      simp [List.lookup, hne]
    | cons p m ih =>
      have hk2 : k ∉ keys m := fun h => hk (by simp [keys] at h ⊢; exact Or.inr h)
      rw [List.cons_append, show p = (p.1, p.2) from rfl, List.lookup_cons, List.lookup_cons]
      cases c == p.1
      · exact ih hk2
      · rfl

end GoMap

namespace qhttp

/-! ### The header copy of `PostWithHeader` -/

theorem values_Add (canon : String → String) (h : Header) (k v c : String) :
    Header.values (Header.Add canon h k v) c =
      if c = canon k then Header.values h c ++ [v] else Header.values h c := by
  unfold Header.Add Header.values
  rw [GoMap.get?_set]
  split_ifs with hc
  · subst hc; rfl
  · rfl

theorem copyHeaders_cons (canon : String → String) (kv : String × List String)
    (headers req : Header) :
    copyHeaders canon (kv :: headers) req =
      match kv.2 with
      | v0 :: _ => copyHeaders canon headers (Header.Add canon req kv.1 v0)
      | [] => Except.error "runtime error: index out of range [0] with length 0" := by
  unfold copyHeaders
  rw [List.foldlM_cons]
  cases kv.2 <;> rfl

theorem copyHeaders_ok (canon : String → String) (headers : Header) :
    ∀ req : Header, (∀ kv ∈ headers, kv.2 ≠ []) →
      ∃ h, copyHeaders canon headers req = .ok h ∧
        ∀ c, Header.values h c = Header.values req c ++
          (headers.filter (fun kv => canon kv.1 == c)).filterMap (fun kv => kv.2.head?) := by
  induction headers with
  | nil =>
    intro req _
    exact ⟨req, rfl, fun c => by simp⟩
  | cons kv l ih =>
    intro req hne
    have hkv := hne kv (List.mem_cons_self _ _)
    rw [copyHeaders_cons]
    cases hv : kv.2 with
    | nil => exact absurd hv hkv
    | cons v0 vs =>
      obtain ⟨h, hh, hval⟩ := ih (Header.Add canon req kv.1 v0)
        (fun x hx => hne x (List.mem_cons_of_mem _ hx))
      refine ⟨h, hh, fun c => ?_⟩
      rw [hval c, values_Add]
      by_cases hc : c = canon kv.1
      · subst hc
        simp [List.filter_cons, hv]
      · have hc2 : ¬ canon kv.1 = c := fun h2 => hc h2.symm
        simp [List.filter_cons, hc, hc2]

theorem copyHeaders_panics (canon : String → String) (headers : Header) :
    ∀ req : Header, (∃ kv ∈ headers, kv.2 = []) →
      ∃ msg, copyHeaders canon headers req = .error msg := by
  induction headers with
  | nil => intro req ⟨kv, hkv, _⟩; cases hkv
  | cons kv l ih =>
    intro req hex
    rw [copyHeaders_cons]
    cases hv : kv.2 with
    | nil => exact ⟨_, rfl⟩
    | cons v0 vs =>
      obtain ⟨x, hx, hx2⟩ := hex
      rcases List.mem_cons.mp hx with h1 | h1
      · subst h1; rw [hv] at hx2; cases hx2
      · exact ih _ ⟨x, h1, hx2⟩

/-- C9: when every key of `headers` has a non-empty value list, the copy loop of
`PostWithHeader` ends without an index error, and afterwards the request carries, under
each canonical key, what it had before followed by the first value `v[0]` of every entry
of `headers` with that canonical key and nothing else; later values are dropped.
`PostWithHeader` itself then does not panic: once `http.NewRequest` has given a request
`r`, it hands `Client.Do` that request with exactly this header and returns what `Do`
answers. When some key has an empty value list the loop panics on `v[0]`, and so does
`PostWithHeader` once `http.NewRequest` has succeeded. -/
theorem PostWithHeader_copies_first_values {ρ β : Type} (canon : String → String)
    (headers req : Header) :
    ((∀ kv ∈ headers, kv.2 ≠ []) →
      ∃ h, copyHeaders canon headers req = .ok h ∧
        ∀ c, Header.values h c = Header.values req c ++
          (headers.filter (fun kv => canon kv.1 == c)).filterMap (fun kv => kv.2.head?)) ∧
    ((∀ kv ∈ headers, kv.2 ≠ []) →
      ∀ (NewRequest : String → String → β → Except GoError Request)
        (Do : Request → Except GoError ρ) (url : String) (body : β) (r : Request),
        NewRequest "POST" url body = .ok r →
        ∃ h, (∀ c, Header.values h c = Header.values r.Header c ++
            (headers.filter (fun kv => canon kv.1 == c)).filterMap (fun kv => kv.2.head?)) ∧
          PostWithHeader canon NewRequest Do url (some headers) body =
            afterDo (Do { Method := r.Method, URL := r.URL, Header := h })) ∧
    ((∃ kv ∈ headers, kv.2 = []) →
      (∃ msg, copyHeaders canon headers req = .error msg) ∧
      ∀ (NewRequest : String → String → β → Except GoError Request)
        (Do : Request → Except GoError ρ) (url : String) (body : β) (r : Request),
        NewRequest "POST" url body = .ok r →
        ∃ msg, PostWithHeader canon NewRequest Do url (some headers) body = .error msg) := by
  refine ⟨copyHeaders_ok canon headers req, fun hne => ?_,
    fun hex => ⟨copyHeaders_panics canon headers req hex, ?_⟩⟩
  · intro NewRequest Do url body r hr
    obtain ⟨h, hh, hval⟩ := copyHeaders_ok canon headers r.Header hne
    refine ⟨h, hval, ?_⟩
    simp only [PostWithHeader, hr, hh, afterDo]
  · intro NewRequest Do url body r hr
    obtain ⟨msg, hmsg⟩ := copyHeaders_panics canon headers r.Header hex
    exact ⟨msg, by simp [PostWithHeader, hr, hmsg]⟩

/-- A concrete case of C9: two values under `Accept`, one under `x-token`. The request
`PostWithHeader` hands to `Client.Do` has the first value of each, under the canonical
keys, and `PostWithHeader` returns the answer. A key with no value makes it panic. -/
theorem PostWithHeader_copies_first_values_witness :
    PostWithHeader sampleCanon sampleNewRequest echoDo "http://localhost/x"
        (some sampleHeaders) ()
      = .ok (some { Method := "POST", URL := "http://localhost/x",
                    Header := [("Accept", ["text/html"]), ("X-Token", ["t1"])] }, none) ∧
    PostWithHeader id sampleNewRequest echoDo "http://localhost/x" (some emptyValueHeaders) ()
      = .error "runtime error: index out of range [0] with length 0" ∧
    (∀ kv ∈ sampleHeaders, kv.2 ≠ []) ∧
    (∃ h, (∀ c, Header.values h c = Header.values [] c ++
          (sampleHeaders.filter (fun kv => sampleCanon kv.1 == c)).filterMap
            (fun kv => kv.2.head?)) ∧
        PostWithHeader sampleCanon sampleNewRequest echoDo "http://localhost/x"
            (some sampleHeaders) () =
          afterDo (echoDo { Method := "POST", URL := "http://localhost/x", Header := h })) :=
  ⟨by rfl, by rfl, by decide,
    (PostWithHeader_copies_first_values sampleCanon sampleHeaders []).2.1 (by decide)
      sampleNewRequest echoDo "http://localhost/x" ()
      { Method := "POST", URL := "http://localhost/x", Header := [] } rfl⟩

end qhttp
